import Mathlib

/-!
Verification of the cibyl repository's core components against its
specification: the filter utility (`cibyl/utils/filtering.py`), the
variable-search helpers (`cibyl/plugins/openstack/sources/zuul/variants.py`),
the Zuul request/response transaction layer
(`cibyl/sources/zuul/transactions/__init__.py`) and the configuration
validator (`cibyl/cli/validator.py`).

Python values are shallowly embedded: lists stay lists, dicts become
association lists, objects become structures, in-place mutation becomes
explicit state passing, and raised exceptions become `Except` errors.
-/

set_option autoImplicit false

namespace Cibyl

/-! ## `cibyl/utils/filtering.py` -/

/-- `apply_filters(iterable, *filters)`: starting from `list(iterable)`,
successively keeps only the elements accepted by each filter
(`result = list(filter(check, result))`). -/
def apply_filters {α : Type} (iterable : List α) (filters : List (α → Bool)) : List α :=
  filters.foldl (fun result check => result.filter check) iterable

/-! ## Python values, as needed by the variable-search helpers

Zuul job variables are arbitrary Python values (strings, numbers,
mappings).  We embed the fragment the claims need, together with Python's
truthiness (`bool(x)`) and stringification (`str(x)`). -/

/-- A Python value: a string, an integer, or absent (`None`). -/
inductive PyVal where
  | vstr (s : String)
  | vint (n : Int)
  | vnone
  deriving DecidableEq, Repr

/-- Python truthiness `bool(x)` on the embedded fragment: the empty string,
zero and `None` are falsy. -/
def PyVal.truthy : PyVal → Bool
  | .vstr s => s ≠ ""
  | .vint n => n ≠ 0
  | .vnone => false

/-- Python `str(x)` on the embedded fragment. -/
def PyVal.toStr : PyVal → String
  | .vstr s => s
  | .vint n => toString n
  | .vnone => "None"

/-- A Python dict of job variables: an association list from names to
values (lookup returns the value of the first matching key). -/
def Variables : Type := List (String × PyVal)

/-- Python `key in dict` / `dict[key]`, merged into one lookup. -/
def Variables.lookup (vars : Variables) (key : String) : Option PyVal :=
  List.lookup key vars

/-! ## `cibyl/plugins/openstack/sources/zuul/variants.py`

`VariableSearch.search` receives a `VariantResponse` and calls
`variant.variables(recursive=True)`; the recursive gathering is performed
by the low-level Zuul API (outside the sources), so a variant is embedded
as the mapping that this call returns. -/

/-- A `VariantResponse`, reduced to what `search` reads from it: `vars` is
the mapping returned by `variant.variables(recursive=True)`, the
recursively-gathered variables of the wrapped variant. -/
structure VariantResponse where
  name : String
  vars : Variables

/-- `VariableSearch`: holds the ordered candidate names of the variable
searched for. -/
structure VariableSearch where
  search_terms : List String

/-- `VariableSearch.search(variant)`: walks the search terms in order and
returns the value bound to the first one present in the variant's
recursively-gathered variables; `None` when none is present. -/
def VariableSearch.search (self : VariableSearch) (variant : VariantResponse) :
    Option PyVal :=
  go self.search_terms variant.vars
where
  /-- The `for search_term in self.search_terms` loop. -/
  go : List String → Variables → Option PyVal
    | [], _ => none
    | term :: rest, vars =>
        match vars.lookup term with
        | some v => some v
        | none => go rest vars

/-- Default search terms of `ReleaseSearch`. -/
def ReleaseSearch.DEFAULT_SEARCH_TERMS : List String :=
  ["rhos_release_version", "osp_release", "release"]

/-- `ReleaseSearch.search(variant)`: runs the base search, returns `None`
when the result is falsy (`if not result: return None`), else `str(result)`. -/
def ReleaseSearch.search (self : VariableSearch) (variant : VariantResponse) :
    Option String :=
  match VariableSearch.search self variant with
  | none => none
  | some result => if result.truthy then some result.toStr else none

/-! ## `cibyl/sources/zuul/transactions/__init__.py` — builds

A raw build record as returned by the low-level job API
(`self._job.builds()`), newest first.  The fields are the ones the request
filters read. -/

/-- A raw build record of the low-level Zuul API. -/
structure Build where
  uuid : String
  result : String
  project : String
  pipeline : String
  deriving DecidableEq, Repr

/-- Modelled from the spec: `matches_regex` is imported by the transactions
module from `cibyl.utils.filtering` but is absent from the sources; per the
spec it tests a string against a regex-style pattern, so a pattern is
embedded abstractly as the Boolean function deciding acceptance. -/
def matches_regex (patt : String → Bool) (string : String) : Bool :=
  patt string

/-- A regex-style pattern, embedded as its acceptance function. -/
def Pattern : Type := String → Bool

/-- State of a `BuildsRequest`: the wrapped job handle (embedded as the
build list its provider returns, newest first), the registered filters, and
the `_last_build_only` flag. -/
structure BuildsRequest where
  job : List Build
  filters : List (Build → Bool)
  last_build_only : Bool

/-- `BuildsRequest.__init__(job)`: empty filter list, flag unset. -/
def BuildsRequest.new (job : List Build) : BuildsRequest :=
  { job := job, filters := [], last_build_only := false }

/-- `with_uuid(*pattern)`: appends a predicate accepting builds whose uuid
matches any of the patterns. -/
def BuildsRequest.with_uuid (self : BuildsRequest) (pattern : List Pattern) :
    BuildsRequest :=
  { self with
      filters := self.filters
        ++ [fun build => pattern.any (fun patt => matches_regex patt build.uuid)] }

/-- `with_status(*pattern)`: appends a predicate accepting builds whose
`result` matches any of the patterns. -/
def BuildsRequest.with_status (self : BuildsRequest) (pattern : List Pattern) :
    BuildsRequest :=
  { self with
      filters := self.filters
        ++ [fun build => pattern.any (fun patt => matches_regex patt build.result)] }

/-- `with_project(*pattern)`: appends a predicate accepting builds whose
project matches any of the patterns. -/
def BuildsRequest.with_project (self : BuildsRequest) (pattern : List Pattern) :
    BuildsRequest :=
  { self with
      filters := self.filters
        ++ [fun build => pattern.any (fun patt => matches_regex patt build.project)] }

/-- `with_pipeline(*pattern)`: appends a predicate accepting builds whose
pipeline matches any of the patterns. -/
def BuildsRequest.with_pipeline (self : BuildsRequest) (pattern : List Pattern) :
    BuildsRequest :=
  { self with
      filters := self.filters
        ++ [fun build => pattern.any (fun patt => matches_regex patt build.pipeline)] }

/-- `with_last_build_only()`: sets the flag, adds no predicate. -/
def BuildsRequest.with_last_build_only (self : BuildsRequest) : BuildsRequest :=
  { self with last_build_only := true }

/-- `BuildResponse`: wraps one raw build. -/
structure BuildResponse where
  build : Build
  deriving DecidableEq, Repr

/-- `BuildsRequest.get()`: applies all registered filters to the provider's
build list, then, if `_last_build_only` is set, keeps only `builds[0:1]`,
and wraps the survivors. -/
def BuildsRequest.get (self : BuildsRequest) : List BuildResponse :=
  let builds := apply_filters self.job self.filters
  let builds := if self.last_build_only then builds.take 1 else builds
  builds.map BuildResponse.mk

/-- One call in a `BuildsRequest` method chain. -/
inductive BuildsOp where
  | with_uuid (pattern : List Pattern)
  | with_status (pattern : List Pattern)
  | with_project (pattern : List Pattern)
  | with_pipeline (pattern : List Pattern)
  | with_last_build_only

/-- Applies one chained call to the request (each method mutates the
request and returns it). -/
def BuildsOp.apply (self : BuildsRequest) : BuildsOp → BuildsRequest
  | .with_uuid pattern => self.with_uuid pattern
  | .with_status pattern => self.with_status pattern
  | .with_project pattern => self.with_project pattern
  | .with_pipeline pattern => self.with_pipeline pattern
  | .with_last_build_only => self.with_last_build_only

/-- Runs a whole method chain on a request, left to right. -/
def BuildsRequest.chain (self : BuildsRequest) (ops : List BuildsOp) : BuildsRequest :=
  ops.foldl BuildsOp.apply self

/-- The predicate a single chained call registers, if any. -/
def BuildsOp.pred : BuildsOp → Option (Build → Bool)
  | .with_uuid pattern =>
      some (fun build => pattern.any (fun patt => matches_regex patt build.uuid))
  | .with_status pattern =>
      some (fun build => pattern.any (fun patt => matches_regex patt build.result))
  | .with_project pattern =>
      some (fun build => pattern.any (fun patt => matches_regex patt build.project))
  | .with_pipeline pattern =>
      some (fun build => pattern.any (fun patt => matches_regex patt build.pipeline))
  | .with_last_build_only => none

/-- The pattern filters a chain registers, in call order. -/
def chainFilters (ops : List BuildsOp) : List (Build → Bool) :=
  ops.filterMap BuildsOp.pred

/-- Whether a chained call is `with_last_build_only()`. -/
def BuildsOp.isLastBuildOnly : BuildsOp → Bool
  | .with_last_build_only => true
  | _ => false

end Cibyl

namespace Cibyl

/-! ## `cibyl/sources/zuul/transactions/__init__.py` — response equality

Response wrappers are Python objects; a class that defines no `__eq__`
inherits `object.__eq__`, which compares object identity.  Identity is
embedded as an allocation id `oid` carried by each wrapper. -/

/-- A raw tenant record (parent of jobs and projects). -/
structure ZuulTenant where
  name : String
  deriving DecidableEq, Repr

/-- A raw project record of the low-level API. -/
structure ZuulProject where
  tenant : ZuulTenant
  name : String
  url : String
  deriving DecidableEq, Repr

/-- A raw pipeline record of the low-level API; its parent is a project. -/
structure ZuulPipeline where
  project : ZuulProject
  name : String
  deriving DecidableEq, Repr

/-- A raw job record of the low-level API; its parent is a tenant. -/
structure ZuulJob where
  tenant : ZuulTenant
  name : String
  url : String
  deriving DecidableEq, Repr

/-- A `PipelineResponse` wrapper object: its own identity plus the wrapped
pipeline handle. -/
structure PipelineResponse where
  oid : Nat
  pipeline : ZuulPipeline
  deriving DecidableEq, Repr

/-- `PipelineResponse.name`, delegating to the wrapped pipeline. -/
def PipelineResponse.name (self : PipelineResponse) : String :=
  self.pipeline.name

/-- `PipelineResponse.project.name`: the `project` property builds a fresh
`ProjectResponse(self._pipeline.project)` whose `name` delegates to the
wrapped project. -/
def PipelineResponse.projectName (self : PipelineResponse) : String :=
  self.pipeline.project.name

/-- `PipelineResponse.__eq__`: `self is other` short-circuit, then
comparison of the pipeline names and of their projects' names.  (The
`isinstance` guard is enforced by the embedding's typing.) -/
def PipelineResponse.eq (self other : PipelineResponse) : Bool :=
  if self.oid == other.oid then
    true
  else
    self.name == other.name && self.projectName == other.projectName

/-- A `JobResponse` wrapper object: its own identity plus the wrapped job
handle. -/
structure JobResponse where
  oid : Nat
  job : ZuulJob
  deriving DecidableEq, Repr

/-- `JobResponse.name`, delegating to the wrapped job. -/
def JobResponse.name (self : JobResponse) : String :=
  self.job.name

/-- `JobResponse` defines no `__eq__`, so Python's `==` falls back to
`object.__eq__`: object identity. -/
def JobResponse.eq (self other : JobResponse) : Bool :=
  self.oid == other.oid

/-- A `ProjectResponse` wrapper object: its own identity plus the wrapped
project handle. -/
structure ProjectResponse where
  oid : Nat
  project : ZuulProject
  deriving DecidableEq, Repr

/-- `ProjectResponse.name`, delegating to the wrapped project. -/
def ProjectResponse.name (self : ProjectResponse) : String :=
  self.project.name

/-- `ProjectResponse` defines no `__eq__`, so Python's `==` falls back to
`object.__eq__`: object identity. -/
def ProjectResponse.eq (self other : ProjectResponse) : Bool :=
  self.oid == other.oid

end Cibyl

namespace Cibyl

/-! ## `cibyl/cli/validator.py`

Configuration models (environments → systems → sources) as the validator
reads and mutates them.  In Python the validator mutates the configuration
tree in place (`source.disable()`, `system.enable()`,
`env.systems.value = env_systems`); the embedding passes the updated
objects explicitly, and `validate_environments` returns, next to its
result, the post-run state of the full configuration tree. -/

/-- A configured source: a name and an enabled flag. -/
structure Source where
  name : String
  enabled : Bool
  deriving DecidableEq, Repr

/-- `source.disable()`. -/
def Source.disable (self : Source) : Source :=
  { self with enabled := false }

/-- A configured system: name, type, enabled flag and its sources. -/
structure System where
  name : String
  system_type : String
  enabled : Bool
  sources : List Source
  deriving DecidableEq, Repr

/-- `system.enable()`. -/
def System.enable (self : System) : System :=
  { self with enabled := true }

/-- `system.is_enabled()`. -/
def System.is_enabled (self : System) : Bool :=
  self.enabled

/-- A configured environment: a name and its systems. -/
structure Environment where
  name : String
  systems : List System
  deriving DecidableEq, Repr

/-- The CLI arguments the validator reads (`self.ci_args.get(...)`); `none`
embeds an argument the user did not supply. -/
structure CiArgs where
  env_name : Option (List String)
  systems : Option (List String)
  system_type : Option (List String)
  sources : Option (List String)
  deriving DecidableEq, Repr

/-- The typed errors `validate_environments` can raise, with the payloads
the exception constructors receive. -/
inductive CibylException where
  | InvalidEnvironment (env : String) (all_envs : List String)
  | InvalidSystem (name : String) (all_systems : List String)
  | NoValidSystem (system_names : List String)
  | NoEnabledSystem
  | NoValidSources (sources : List String)
  deriving DecidableEq, Repr

/-- `Validator._check_input_environments`: if the user supplied the
argument, every supplied name must exist in `all_envs`; the first name that
does not is the one the raised exception carries.  `none` means the check
passed. -/
def check_input_environments (user_input : Option (List String))
    (all_envs : List String) : Option String :=
  match user_input with
  | none => none
  | some names => names.find? (fun env_name => !(all_envs.contains env_name))

/-- `Validator._consistent_environment`: keep the environment unless an
`env_name` filter was supplied and its name is not in it. -/
def consistent_environment (args : CiArgs) (env : Environment) : Bool :=
  match args.env_name with
  | some user_env => user_env.contains env.name
  | none => true

/-- `Validator._consistent_system`: keep the system unless a `system_type`
filter excludes its type or a `systems` filter excludes its name. -/
def consistent_system (args : CiArgs) (system : System) : Bool :=
  (match args.system_type with
   | some user_system_type => user_system_type.contains system.system_type
   | none => true) &&
  (match args.systems with
   | some user_systems => user_systems.contains system.name
   | none => true)

/-- `Validator._system_has_valid_sources`: when a `sources` filter was
supplied, disable in place every source whose name is not in the requested
set, and accept the system exactly when the requested set intersects its
source names.  Returns the updated system together with the verdict. -/
def system_has_valid_sources (args : CiArgs) (system : System) : System × Bool :=
  match args.sources with
  | none => (system, true)
  | some user_sources_names =>
      let system_sources := system.sources.map Source.name
      let updated := system.sources.map (fun source =>
        if user_sources_names.contains source.name then source else source.disable)
      ({ system with sources := updated },
       system_sources.any (fun n => user_sources_names.contains n))

/-- The body of one `check_envs` loop iteration for one environment: if the
environment check fails the environment is skipped untouched; otherwise
every system goes through `systems_check` (whose in-place mutations stick),
and the environment is passed back — with its systems pruned to the
passing ones — only when at least one system passed.  When none passed the
environment is dropped but keeps its (mutated) systems list. -/
def check_env_step (systems_check : System → System × Bool)
    (envs_check : Environment → Bool) (env : Environment) : Environment × Bool :=
  if envs_check env then
    let checked := env.systems.map systems_check
    let env_systems := (checked.filter Prod.snd).map Prod.fst
    if env_systems.isEmpty then
      ({ env with systems := checked.map Prod.fst }, false)
    else
      ({ env with systems := env_systems }, true)
  else
    (env, false)

/-- `Validator.check_envs` over the whole configuration tree.  Each entry
pairs an environment with whether it is still under consideration; stages
run only on surviving entries, mirroring that Python hands only the
survivors of the previous stage to the next `check_envs` call while the
dropped environment objects continue to exist. -/
def check_envs (systems_check : System → System × Bool)
    (envs_check : Environment → Bool)
    (config : List (Environment × Bool)) : List (Environment × Bool) :=
  config.map (fun p =>
    if p.2 then check_env_step systems_check envs_check p.1 else p)

/-- The environments `check_envs` passed back (`user_envs`). -/
def surviving_envs (config : List (Environment × Bool)) : List Environment :=
  (config.filter Prod.snd).map Prod.fst

/-- The systems `check_envs` passed back (`user_systems`): the systems of
the surviving, already-pruned environments. -/
def surviving_systems (config : List (Environment × Bool)) : List System :=
  (surviving_envs config).flatMap Environment.systems

/-- `Validator.override_enabled_systems`: systems named in the `systems`
CLI argument are enabled in place (among the systems currently under
consideration) even if the configuration disabled them. -/
def override_enabled_systems (args : CiArgs)
    (config : List (Environment × Bool)) : List (Environment × Bool) :=
  match args.systems with
  | none => config
  | some user_systems =>
      config.map (fun p =>
        if p.2 then
          ({ p.1 with
              systems := p.1.systems.map (fun system =>
                if user_systems.contains system.name then system.enable
                else system) }, p.2)
        else p)

/-- The consistency stage of `validate_environments`: `check_envs` with
`_consistent_system` and `_consistent_environment` on the full
configuration. -/
def stage_consistency (args : CiArgs) (environments : List Environment) :
    List (Environment × Bool) :=
  check_envs (fun system => (system, consistent_system args system))
    (consistent_environment args)
    (environments.map (fun env => (env, true)))

/-- The enablement stage: `override_enabled_systems` followed by
`check_envs` with `_system_is_enabled`. -/
def stage_enabled (args : CiArgs) (config : List (Environment × Bool)) :
    List (Environment × Bool) :=
  check_envs (fun system => (system, system.is_enabled)) (fun _ => true)
    (override_enabled_systems args config)

/-- The source stage: `check_envs` with `_system_has_valid_sources`. -/
def stage_sources (args : CiArgs) (config : List (Environment × Bool)) :
    List (Environment × Bool) :=
  check_envs (system_has_valid_sources args) (fun _ => true) config

/-- `Validator.validate_environments`: existence checks on the user's
`env_name` and `systems` arguments against the full unfiltered name sets,
then the consistency, enablement and source stages, each raising its typed
error when zero systems survive it globally.  The first component is the
outcome (the returned `user_envs` or the raised exception); the second is
the post-run state of the full configuration tree, which Python mutates in
place. -/
def validate_environments (args : CiArgs) (environments : List Environment) :
    Except CibylException (List Environment) × List Environment :=
  let all_envs := environments.map Environment.name
  let all_systems := environments.flatMap Environment.systems
  let system_names := all_systems.map System.name
  match check_input_environments args.env_name all_envs with
  | some env_name => (.error (.InvalidEnvironment env_name all_envs), environments)
  | none =>
    match check_input_environments args.systems system_names with
    | some name => (.error (.InvalidSystem name system_names), environments)
    | none =>
      let c1 := stage_consistency args environments
      if (surviving_systems c1).isEmpty then
        (.error (.NoValidSystem system_names), c1.map Prod.fst)
      else
        let c2 := stage_enabled args c1
        if (surviving_systems c2).isEmpty then
          (.error .NoEnabledSystem, c2.map Prod.fst)
        else
          let c3 := stage_sources args c2
          if (surviving_systems c3).isEmpty then
            (.error (.NoValidSources (all_systems.flatMap
                (fun system => system.sources.map Source.name))), c3.map Prod.fst)
          else
            (.ok (surviving_envs c3), c3.map Prod.fst)

end Cibyl

namespace Cibyl

/-! ## Theorems: filter utility -/

/-- `apply_filters` keeps exactly the elements accepted by every filter,
in their original order. -/
theorem apply_filters_eq_filter_all {α : Type} (iterable : List α)
    (filters : List (α → Bool)) :
    apply_filters iterable filters
      = iterable.filter (fun x => filters.all (fun check => check x)) := by
  induction filters generalizing iterable with
  | nil => simp [apply_filters]
  | cons f fs ih =>
      simp only [apply_filters, List.foldl_cons] at *
      rw [ih (iterable.filter f), List.filter_filter]
      congr 1
      funext x
      rw [List.all_cons]
      exact Bool.and_comm _ _

/-- C8: `apply_filters S p1..pn` is the sublist of `S` of elements accepted
by all the predicates, and the result does not depend on the order in which
the predicates are supplied. -/
theorem apply_filters_spec {α : Type} (S : List α) (ps : List (α → Bool)) :
    apply_filters S ps = S.filter (fun x => ps.all (fun p => p x)) ∧
    (∀ qs : List (α → Bool), ps.Perm qs → apply_filters S ps = apply_filters S qs) := by
  refine ⟨apply_filters_eq_filter_all S ps, ?_⟩
  intro qs hperm
  rw [apply_filters_eq_filter_all, apply_filters_eq_filter_all]
  congr 1
  funext x
  refine Bool.eq_iff_iff.mpr ?_
  simp only [List.all_eq_true]
  exact ⟨fun h p hp => h p (hperm.mem_iff.mpr hp), fun h p hp => h p (hperm.mem_iff.mp hp)⟩

/-! ## Theorems: builds request -/

/-- Running a method chain on a fresh `BuildsRequest` leaves the job
handle untouched, registers exactly the chain's pattern filters in call
order, and sets the flag exactly when `with_last_build_only()` occurs. -/
theorem BuildsRequest_chain_state (ops : List BuildsOp) (r : BuildsRequest) :
    (r.chain ops).job = r.job ∧
    (r.chain ops).filters = r.filters ++ chainFilters ops ∧
    (r.chain ops).last_build_only
      = (r.last_build_only || ops.any BuildsOp.isLastBuildOnly) := by
  induction ops generalizing r with
  | nil => simp [BuildsRequest.chain, chainFilters]
  | cons op rest ih =>
      have h := ih (BuildsOp.apply r op)
      have hc : r.chain (op :: rest) = (BuildsOp.apply r op).chain rest := rfl
      rw [hc]
      cases op with
      | with_uuid pattern =>
          simpa [BuildsOp.apply, BuildsRequest.with_uuid, chainFilters,
            BuildsOp.pred, BuildsOp.isLastBuildOnly, List.filterMap_cons] using h
      | with_status pattern =>
          simpa [BuildsOp.apply, BuildsRequest.with_status, chainFilters,
            BuildsOp.pred, BuildsOp.isLastBuildOnly, List.filterMap_cons] using h
      | with_project pattern =>
          simpa [BuildsOp.apply, BuildsRequest.with_project, chainFilters,
            BuildsOp.pred, BuildsOp.isLastBuildOnly, List.filterMap_cons] using h
      | with_pipeline pattern =>
          simpa [BuildsOp.apply, BuildsRequest.with_pipeline, chainFilters,
            BuildsOp.pred, BuildsOp.isLastBuildOnly, List.filterMap_cons] using h
      | with_last_build_only =>
          simpa [BuildsOp.apply, BuildsRequest.with_last_build_only, chainFilters,
            BuildsOp.pred, BuildsOp.isLastBuildOnly, List.filterMap_cons] using h

/-- C1: for any method chain containing `with_last_build_only()` — wherever
it sits relative to the pattern filters — `get()` applies every registered
pattern filter to the provider-ordered (newest-first) build list first and
only then truncates: the result is the first element of the filtered list,
has at most one element, and an empty filtered list yields the empty list. -/
theorem BuildsRequest_get_last_build_only (job : List Build) (ops : List BuildsOp)
    (h : BuildsOp.with_last_build_only ∈ ops) :
    ((BuildsRequest.new job).chain ops).get
        = ((apply_filters job (chainFilters ops)).take 1).map BuildResponse.mk ∧
    (((BuildsRequest.new job).chain ops).get).length ≤ 1 ∧
    (apply_filters job (chainFilters ops) = [] →
        ((BuildsRequest.new job).chain ops).get = []) := by
  obtain ⟨hj, hf, hl⟩ := BuildsRequest_chain_state ops (BuildsRequest.new job)
  have hany : ops.any BuildsOp.isLastBuildOnly = true :=
    List.any_eq_true.mpr ⟨_, h, rfl⟩
  have hget : ((BuildsRequest.new job).chain ops).get
      = ((apply_filters job (chainFilters ops)).take 1).map BuildResponse.mk := by
    unfold BuildsRequest.get
    rw [hj, hf, hl, hany]
    simp [BuildsRequest.new]
  refine ⟨hget, ?_, ?_⟩
  · rw [hget]
    simp only [List.length_map, List.length_take]
    exact min_le_left _ _
  · intro hempty
    rw [hget, hempty]
    rfl

/-- Witness for C1: a chain placing `with_last_build_only()` before a status
filter still filters first and returns only the newest surviving build. -/
theorem BuildsRequest_get_last_build_only_witness :
    ((BuildsRequest.new
        [⟨"u1", "FAILURE", "p", "c"⟩, ⟨"u2", "SUCCESS", "p", "c"⟩,
         ⟨"u3", "SUCCESS", "p", "c"⟩]).chain
        [.with_last_build_only, .with_status [fun s => s == "SUCCESS"]]).get
      = [⟨⟨"u2", "SUCCESS", "p", "c"⟩⟩] := by
  have h := (BuildsRequest_get_last_build_only
      [⟨"u1", "FAILURE", "p", "c"⟩, ⟨"u2", "SUCCESS", "p", "c"⟩,
       ⟨"u3", "SUCCESS", "p", "c"⟩]
      [.with_last_build_only, .with_status [fun s => s == "SUCCESS"]]
      (List.mem_cons_self _ _)).1
  rw [h]
  rfl

/-! ## Theorems: response equality -/

/-- C3 counterexample: two distinct `JobResponse` wrappers agreeing on the
job name and on the parent tenant's name are nevertheless unequal, because
`JobResponse` defines no `__eq__` and compares by identity. -/
theorem response_structural_eq_counterexample :
    (JobResponse.mk 1 ⟨⟨"tenant"⟩, "job", "url"⟩).name
        = (JobResponse.mk 2 ⟨⟨"tenant"⟩, "job", "url"⟩).name ∧
    (JobResponse.mk 1 ⟨⟨"tenant"⟩, "job", "url"⟩).job.tenant.name
        = (JobResponse.mk 2 ⟨⟨"tenant"⟩, "job", "url"⟩).job.tenant.name ∧
    JobResponse.eq (JobResponse.mk 1 ⟨⟨"tenant"⟩, "job", "url"⟩)
        (JobResponse.mk 2 ⟨⟨"tenant"⟩, "job", "url"⟩) = false := by
  refine ⟨rfl, rfl, ?_⟩
  decide

/-- C3 amended: only `PipelineResponse` implements structural equality —
two distinct pipeline wrappers are equal exactly when they agree on name
and on the project's name, independent of the wrapped provider object —
while `JobResponse` and `ProjectResponse` inherit identity equality. -/
theorem response_structural_eq_amended :
    (∀ a b : PipelineResponse, a.oid ≠ b.oid →
        (PipelineResponse.eq a b = true ↔
          a.name = b.name ∧ a.projectName = b.projectName)) ∧
    (∀ a b : JobResponse, JobResponse.eq a b = true ↔ a.oid = b.oid) ∧
    (∀ a b : ProjectResponse, ProjectResponse.eq a b = true ↔ a.oid = b.oid) := by
  refine ⟨?_, ?_, ?_⟩
  · intro a b hne
    unfold PipelineResponse.eq
    rw [if_neg (by simpa using hne)]
    simp
  · intro a b
    simp [JobResponse.eq]
  · intro a b
    simp [ProjectResponse.eq]

/-- Witness for C3 (amended): two pipeline wrappers around different
provider objects, agreeing on name and project name, are equal. -/
theorem response_structural_eq_amended_witness :
    PipelineResponse.eq ⟨1, ⟨⟨⟨"t1"⟩, "proj", "url1"⟩, "pipe"⟩⟩
        ⟨2, ⟨⟨⟨"t2"⟩, "proj", "url2"⟩, "pipe"⟩⟩ = true := by
  have h := response_structural_eq_amended.1
      ⟨1, ⟨⟨⟨"t1"⟩, "proj", "url1"⟩, "pipe"⟩⟩
      ⟨2, ⟨⟨⟨"t2"⟩, "proj", "url2"⟩, "pipe"⟩⟩ (by decide)
  exact h.mpr ⟨rfl, rfl⟩

/-! ## Theorems: variable search -/

/-- The search loop returns `none` exactly when no term is present. -/
theorem search_go_eq_none_iff (terms : List String) (vars : Variables) :
    VariableSearch.search.go terms vars = none ↔
      ∀ t ∈ terms, vars.lookup t = none := by
  induction terms with
  | nil => simp [VariableSearch.search.go]
  | cons t rest ih =>
      simp only [VariableSearch.search.go]
      cases h : vars.lookup t with
      | some v => simp [h]
      | none => simp [h, ih]

/-- The search loop returns the value of the first present term. -/
theorem search_go_first_match (pre : List String) (t : String) (post : List String)
    (vars : Variables) (v : PyVal)
    (hpre : ∀ t2 ∈ pre, vars.lookup t2 = none) (ht : vars.lookup t = some v) :
    VariableSearch.search.go (pre ++ t :: post) vars = some v := by
  induction pre with
  | nil => simp [VariableSearch.search.go, ht]
  | cons p ps ih =>
      have hp : vars.lookup p = none := hpre p (by simp)
      simp only [List.cons_append, VariableSearch.search.go, hp]
      exact ih (fun t2 h2 => hpre t2 (by simp [h2]))

/-- C9: `VariableSearch.search` returns the value bound to the first
candidate term present in the variant's variables, and `None` exactly when
no candidate is present; later candidates never affect the result. -/
theorem VariableSearch_search_spec (terms : List String) (variant : VariantResponse) :
    (∀ pre t post v, terms = pre ++ t :: post →
        (∀ t2 ∈ pre, variant.vars.lookup t2 = none) →
        variant.vars.lookup t = some v →
        VariableSearch.search ⟨terms⟩ variant = some v) ∧
    (VariableSearch.search ⟨terms⟩ variant = none ↔
        ∀ t ∈ terms, variant.vars.lookup t = none) := by
  constructor
  · intro pre t post v hsplit hpre ht
    unfold VariableSearch.search
    rw [hsplit]
    exact search_go_first_match pre t post variant.vars v hpre ht
  · exact search_go_eq_none_iff terms variant.vars

/-- Witness for C9: with candidates `[a, b, c]` and a scope containing `b`
and `c` but not `a`, the value of `b` is returned. -/
theorem VariableSearch_search_spec_witness :
    VariableSearch.search ⟨["a", "b", "c"]⟩
        ⟨"variant", [("b", .vint 2), ("c", .vint 3)]⟩ = some (.vint 2) := by
  have h := (VariableSearch_search_spec ["a", "b", "c"]
      ⟨"variant", [("b", .vint 2), ("c", .vint 3)]⟩).1
      ["a"] "b" ["c"] (.vint 2) rfl
  exact h (by decide) (by decide)

/-- C4 counterexample: the variables bind the search term `release` to the
empty string, a present but falsy value; `ReleaseSearch.search` returns
`None` rather than the stringification `""` of the bound value. -/
theorem ReleaseSearch_search_counterexample :
    (Variables.lookup [("release", .vstr "")] "release" = some (.vstr "")) ∧
    "release" ∈ ReleaseSearch.DEFAULT_SEARCH_TERMS ∧
    ReleaseSearch.search ⟨ReleaseSearch.DEFAULT_SEARCH_TERMS⟩
        ⟨"variant", [("release", .vstr "")]⟩ = none := by
  refine ⟨by decide, by decide, ?_⟩
  rfl

/-- C4 amended: for every variant whose recursively-gathered variables
contain at least one search term, `ReleaseSearch.search` returns the string
form of the value bound to the first matching term when that value is
truthy, and `None` when it is falsy; it also returns `None` when no search
term is present in the variables. -/
theorem ReleaseSearch_search_amended (terms : List String) (variant : VariantResponse) :
    (∀ pre t post v, terms = pre ++ t :: post →
        (∀ t2 ∈ pre, variant.vars.lookup t2 = none) →
        variant.vars.lookup t = some v →
        ReleaseSearch.search ⟨terms⟩ variant
          = if v.truthy then some v.toStr else none) ∧
    ((∀ t ∈ terms, variant.vars.lookup t = none) →
        ReleaseSearch.search ⟨terms⟩ variant = none) := by
  constructor
  · intro pre t post v hsplit hpre ht
    unfold ReleaseSearch.search
    have h : VariableSearch.search ⟨terms⟩ variant = some v := by
      unfold VariableSearch.search
      rw [hsplit]
      exact search_go_first_match pre t post variant.vars v hpre ht
    rw [h]
  · intro habsent
    unfold ReleaseSearch.search
    have h : VariableSearch.search ⟨terms⟩ variant = none :=
      (search_go_eq_none_iff terms variant.vars).mpr habsent
    rw [h]

/-- Witness for C4 (amended): a truthy value is stringified, an absent term
yields `None`. -/
theorem ReleaseSearch_search_amended_witness :
    ReleaseSearch.search ⟨["release"]⟩ ⟨"v", [("release", .vint 17)]⟩ = some "17" ∧
    ReleaseSearch.search ⟨["release"]⟩ ⟨"v", [("other", .vint 17)]⟩ = none := by
  constructor
  · have h := (ReleaseSearch_search_amended ["release"]
        ⟨"v", [("release", .vint 17)]⟩).1 [] "release" [] (.vint 17) rfl
        (by simp) (by decide)
    simpa using h
  · exact (ReleaseSearch_search_amended ["release"]
        ⟨"v", [("other", .vint 17)]⟩).2 (by decide)

/-! ## Theorems: validator -/

/-- For a pure system check, the kept systems of one `check_envs` iteration
are the filter of the environment's systems. -/
theorem pure_checked_systems (p : System → Bool) (l : List System) :
    ((l.map (fun system => (system, p system))).filter Prod.snd).map Prod.fst
      = l.filter p := by
  induction l with
  | nil => rfl
  | cons s rest ih =>
      by_cases h : p s <;> simp [List.filter_cons, h, ih]

/-- A filter result is empty exactly when no element passes. -/
theorem filter_isEmpty_eq_not_any {α : Type} (p : α → Bool) (l : List α) :
    (l.filter p).isEmpty = !(l.any p) := by
  induction l with
  | nil => rfl
  | cons a rest ih =>
      by_cases h : p a <;> simp [List.filter_cons, h, ih]

/-- One `check_envs` iteration with a pure (mutation-free) system check:
the environment is passed back, pruned to the passing systems, exactly when
its own check passes and at least one system passes. -/
theorem check_env_step_pure (p : System → Bool) (ec : Environment → Bool)
    (env : Environment) :
    check_env_step (fun system => (system, p system)) ec env
      = if ec env && env.systems.any p
        then ({ env with systems := env.systems.filter p }, true)
        else (env, false) := by
  unfold check_env_step
  by_cases hec : ec env
  · simp only [hec, if_true, Bool.true_and]
    rw [pure_checked_systems, filter_isEmpty_eq_not_any]
    by_cases hany : env.systems.any p
    · simp [hany]
    · have hmap : (env.systems.map (fun system => (system, p system))).map Prod.fst
          = env.systems := by
        rw [List.map_map]
        exact List.map_id' env.systems
      simp [hany, hmap]
  · simp [hec]

/-- If every system of every environment still under consideration fails a
pure system check, the stage leaves no surviving systems. -/
theorem check_envs_pure_no_survivors (p : System → Bool) (ec : Environment → Bool)
    (config : List (Environment × Bool))
    (h : ∀ pe ∈ config, pe.2 = true → ∀ s ∈ pe.1.systems, p s = false) :
    surviving_systems (check_envs (fun system => (system, p system)) ec config)
      = [] := by
  have hs : surviving_envs (check_envs (fun system => (system, p system)) ec config)
      = [] := by
    unfold surviving_envs check_envs
    have hfil : (config.map (fun pe =>
        if pe.2 then check_env_step (fun system => (system, p system)) ec pe.1
        else pe)).filter Prod.snd = [] := by
      rw [List.filter_eq_nil_iff]
      intro q hq
      obtain ⟨pe, hpe, hq⟩ := List.mem_map.mp hq
      by_cases halive : pe.2
      · rw [if_pos halive, check_env_step_pure] at hq
        have hany : pe.1.systems.any p = false := by
          rw [List.any_eq_false]
          intro s hsmem
          simp [h pe hpe halive s hsmem]
        rw [hany] at hq
        simp only [Bool.and_false, if_false] at hq
        simp [← hq]
      · have hfalse : pe.2 = false := by simpa using halive
        rw [if_neg halive] at hq
        simp [← hq, hfalse]
    rw [hfil]
    rfl
  unfold surviving_systems
  rw [hs]
  rfl

/-- Every system found in the output of the consistency stage was a system
of one of the input environments. -/
theorem stage_consistency_systems_sub (args : CiArgs)
    (environments : List Environment) :
    ∀ pe ∈ stage_consistency args environments, ∀ s ∈ pe.1.systems,
      ∃ env ∈ environments, s ∈ env.systems := by
  intro pe hpe s hs
  unfold stage_consistency check_envs at hpe
  rw [List.map_map] at hpe
  obtain ⟨env, henv, heq⟩ := List.mem_map.mp hpe
  refine ⟨env, henv, ?_⟩
  simp only [Function.comp, if_pos] at heq
  rw [check_env_step_pure] at heq
  by_cases hc : consistent_environment args env
      && env.systems.any (consistent_system args)
  · rw [if_pos hc] at heq
    rw [← heq] at hs
    exact List.mem_of_mem_filter hs
  · rw [if_neg hc] at heq
    rw [← heq] at hs
    exact hs

/-- C7: `validate_environments` checks the user-supplied `env_name` names
against all configured environment names and the `systems` names against
all configured system names; an unknown name raises `InvalidEnvironment`
resp. `InvalidSystem` carrying the full unfiltered name set, and the
configuration tree is returned untouched — no pruning or mutation happened
yet. -/
theorem Validator_input_existence_check (args : CiArgs)
    (environments : List Environment) :
    (∀ l, args.env_name = some l →
        (∃ n ∈ l, n ∉ environments.map Environment.name) →
        ∃ m ∈ l, m ∉ environments.map Environment.name ∧
          validate_environments args environments
            = (.error (.InvalidEnvironment m (environments.map Environment.name)),
               environments)) ∧
    (∀ l, args.systems = some l →
        check_input_environments args.env_name (environments.map Environment.name)
          = none →
        (∃ n ∈ l,
          n ∉ (environments.flatMap Environment.systems).map System.name) →
        ∃ m ∈ l,
          m ∉ (environments.flatMap Environment.systems).map System.name ∧
          validate_environments args environments
            = (.error (.InvalidSystem m
                ((environments.flatMap Environment.systems).map System.name)),
               environments)) := by
  constructor
  · intro l hl hex
    obtain ⟨n, hn, hnotin⟩ := hex
    have hsome : (l.find? (fun env_name =>
        !((environments.map Environment.name).contains env_name))).isSome := by
      rw [List.find?_isSome]
      exact ⟨n, hn, by simpa using hnotin⟩
    obtain ⟨m, hm⟩ := Option.isSome_iff_exists.mp hsome
    have hmp := List.find?_some hm
    refine ⟨m, List.mem_of_find?_eq_some hm, by simpa using hmp, ?_⟩
    have hch : check_input_environments args.env_name
        (environments.map Environment.name) = some m := by
      rw [hl]
      exact hm
    unfold validate_environments
    simp [hch]
  · intro l hl hpass hex
    obtain ⟨n, hn, hnotin⟩ := hex
    have hsome : (l.find? (fun env_name =>
        !(((environments.flatMap Environment.systems).map System.name).contains
          env_name))).isSome := by
      rw [List.find?_isSome]
      exact ⟨n, hn, by simpa using hnotin⟩
    obtain ⟨m, hm⟩ := Option.isSome_iff_exists.mp hsome
    have hmp := List.find?_some hm
    refine ⟨m, List.mem_of_find?_eq_some hm, by simpa using hmp, ?_⟩
    have hch : check_input_environments args.systems
        ((environments.flatMap Environment.systems).map System.name) = some m := by
      rw [hl]
      exact hm
    unfold validate_environments
    simp [hpass, hch]

/-- Witness for C7: `env_name=["doesnotexist"]` against a configuration
with one environment raises `InvalidEnvironment` and leaves the
configuration untouched. -/
theorem Validator_input_existence_check_witness :
    validate_environments ⟨some ["doesnotexist"], none, none, none⟩
        [⟨"production", [⟨"sys", "zuul", true, []⟩]⟩]
      = (.error (.InvalidEnvironment "doesnotexist" ["production"]),
         [⟨"production", [⟨"sys", "zuul", true, []⟩]⟩]) := by
  obtain ⟨m, hm, _, heq⟩ := (Validator_input_existence_check
      ⟨some ["doesnotexist"], none, none, none⟩
      [⟨"production", [⟨"sys", "zuul", true, []⟩]⟩]).1
      ["doesnotexist"] rfl ⟨"doesnotexist", by simp, by simp⟩
  have hme : m = "doesnotexist" := by simpa using hm
  rw [hme] at heq
  exact heq

/-- C5: in the consistency stage an environment is passed on exactly when
its own check passes and at least one of its systems passes the
type/name consistency check (an environment with zero matching systems is
dropped, with no error of its own); when zero systems survive the stage
globally, `validate_environments` raises `NoValidSystem` carrying the full
list of configured system names. -/
theorem Validator_consistency_stage (args : CiArgs)
    (environments : List Environment) :
    (∀ env : Environment,
        (check_env_step (fun system => (system, consistent_system args system))
            (consistent_environment args) env).2 = true
          ↔ (consistent_environment args env = true ∧
             env.systems.any (consistent_system args) = true)) ∧
    (check_input_environments args.env_name (environments.map Environment.name)
        = none →
     check_input_environments args.systems
        ((environments.flatMap Environment.systems).map System.name) = none →
     (surviving_systems (stage_consistency args environments)).isEmpty = true →
     validate_environments args environments
        = (.error (.NoValidSystem
            ((environments.flatMap Environment.systems).map System.name)),
           (stage_consistency args environments).map Prod.fst)) := by
  constructor
  · intro env
    rw [check_env_step_pure]
    by_cases hc : consistent_environment args env
        && env.systems.any (consistent_system args)
    · rw [if_pos hc]
      rw [Bool.and_eq_true] at hc
      simp [hc.1, hc.2]
    · rw [if_neg hc]
      simp only [Bool.and_eq_true] at hc
      exact ⟨fun hfalse => absurd hfalse Bool.false_ne_true,
        fun hand => absurd hand hc⟩
  · intro h1 h2 h3
    unfold validate_environments
    simp [h1, h2, h3]

/-- Witness for C5: a configuration whose only system has type `jenkins`
under a `system_type=["zuul"]` filter loses all systems at the consistency
stage and raises `NoValidSystem` with the system-name list. -/
theorem Validator_consistency_stage_witness :
    validate_environments ⟨none, none, some ["zuul"], none⟩
        [⟨"e", [⟨"s1", "jenkins", true, []⟩]⟩]
      = (.error (.NoValidSystem ["s1"]), [⟨"e", [⟨"s1", "jenkins", true, []⟩]⟩]) := by
  have h := (Validator_consistency_stage ⟨none, none, some ["zuul"], none⟩
      [⟨"e", [⟨"s1", "jenkins", true, []⟩]⟩]).2 rfl rfl (by decide)
  exact h

/-- C6: a system named in the `systems` CLI argument is enabled in place
before the enabled filter runs, so it survives that filter even if the
configuration disabled it; and when no `systems` filter is given and every
configured system is disabled, `validate_environments` raises
`NoEnabledSystem`, which carries no payload. -/
theorem Validator_enabled_stage (args : CiArgs) :
    (∀ names, args.systems = some names →
        ∀ (config : List (Environment × Bool)) (env : Environment),
          (env, true) ∈ config → ∀ system ∈ env.systems, system.name ∈ names →
          ∃ env2, (env2, true) ∈ stage_enabled args config ∧
            system.enable ∈ env2.systems) ∧
    (∀ environments : List Environment,
        args.systems = none →
        check_input_environments args.env_name (environments.map Environment.name)
          = none →
        (∀ env ∈ environments, ∀ system ∈ env.systems, system.enabled = false) →
        (surviving_systems (stage_consistency args environments)).isEmpty = false →
        validate_environments args environments
          = (.error .NoEnabledSystem,
             (stage_enabled args (stage_consistency args environments)).map
               Prod.fst)) := by
  constructor
  · intro names hnames config env hmem system hsys hname
    have hcontains : names.contains system.name = true := by
      simpa using hname
    have henmem : system.enable ∈ env.systems.map (fun system =>
        if names.contains system.name then system.enable else system) :=
      List.mem_map.mpr ⟨system, hsys, by rw [if_pos hcontains]⟩
    have hover : (({ env with systems := env.systems.map (fun system =>
        if names.contains system.name then system.enable else system) } :
          Environment), true) ∈ override_enabled_systems args config := by
      unfold override_enabled_systems
      rw [hnames]
      have := List.mem_map_of_mem (fun p : Environment × Bool =>
        if p.2 then
          ({ p.1 with systems := p.1.systems.map (fun system =>
              if names.contains system.name then system.enable
              else system) }, p.2)
        else p) hmem
      simpa using this
    have hany : (env.systems.map (fun system =>
        if names.contains system.name then system.enable
        else system)).any System.is_enabled = true :=
      List.any_eq_true.mpr ⟨system.enable, henmem, rfl⟩
    have hstep : check_env_step (fun system => (system, system.is_enabled))
        (fun _ => true)
        { env with systems := env.systems.map (fun system =>
            if names.contains system.name then system.enable else system) }
        = ({ env with systems := (env.systems.map (fun system =>
            if names.contains system.name then system.enable
            else system)).filter System.is_enabled }, true) := by
      have hcond : ((fun (_ : Environment) => true)
          { env with systems := env.systems.map (fun system =>
              if names.contains system.name then system.enable else system) }
          && ({ env with systems := env.systems.map (fun system =>
              if names.contains system.name then system.enable else system) } :
                Environment).systems.any System.is_enabled) = true := by
        simpa using hany
      rw [check_env_step_pure, if_pos hcond]
    refine ⟨{ env with systems := (env.systems.map (fun system =>
        if names.contains system.name then system.enable
        else system)).filter System.is_enabled }, ?_, ?_⟩
    · unfold stage_enabled check_envs
      have hthis := List.mem_map_of_mem (fun p : Environment × Bool =>
        if p.2 then
          check_env_step (fun system => (system, system.is_enabled))
            (fun _ => true) p.1
        else p) hover
      have hthis2 : check_env_step (fun system => (system, system.is_enabled))
          (fun _ => true)
          { env with systems := env.systems.map (fun system =>
              if names.contains system.name then system.enable else system) }
          ∈ (override_enabled_systems args config).map
            (fun p : Environment × Bool =>
              if p.2 then
                check_env_step (fun system => (system, system.is_enabled))
                  (fun _ => true) p.1
              else p) := hthis
      rw [hstep] at hthis2
      exact hthis2
    · exact List.mem_filter.mpr ⟨henmem, rfl⟩
  · intro environments hnone h1 hdis hc1
    have h2 : check_input_environments args.systems
        ((environments.flatMap Environment.systems).map System.name) = none := by
      rw [hnone]
      rfl
    have hover : override_enabled_systems args (stage_consistency args environments)
        = stage_consistency args environments := by
      unfold override_enabled_systems
      rw [hnone]
    have hdis2 : ∀ pe ∈ stage_consistency args environments, pe.2 = true →
        ∀ s ∈ pe.1.systems, s.is_enabled = false := by
      intro pe hpe _ s hsmem
      obtain ⟨env, henv, hsys⟩ :=
        stage_consistency_systems_sub args environments pe hpe s hsmem
      exact hdis env henv s hsys
    have hempty : (surviving_systems
        (stage_enabled args (stage_consistency args environments))).isEmpty
          = true := by
      have hnosurv : surviving_systems
          (stage_enabled args (stage_consistency args environments)) = [] := by
        unfold stage_enabled
        rw [hover]
        exact check_envs_pure_no_survivors System.is_enabled _ _ hdis2
      rw [hnosurv]
      rfl
    unfold validate_environments
    simp [h1, h2, hc1, hempty]

/-- Witness for C6: a disabled system named via `systems=["s1"]` is
force-enabled and survives the enabled filter; and with all systems
disabled and no `systems` filter, `NoEnabledSystem` is raised. -/
theorem Validator_enabled_stage_witness :
    (∃ env2, (env2, true) ∈ stage_enabled ⟨none, some ["s1"], none, none⟩
        [(⟨"e", [⟨"s1", "zuul", false, []⟩]⟩, true)] ∧
      System.enable ⟨"s1", "zuul", false, []⟩ ∈ env2.systems) ∧
    validate_environments ⟨none, none, none, none⟩
        [⟨"e", [⟨"s1", "zuul", false, []⟩]⟩]
      = (.error .NoEnabledSystem, [⟨"e", [⟨"s1", "zuul", false, []⟩]⟩]) := by
  constructor
  · exact (Validator_enabled_stage ⟨none, some ["s1"], none, none⟩).1
      ["s1"] rfl [(⟨"e", [⟨"s1", "zuul", false, []⟩]⟩, true)]
      ⟨"e", [⟨"s1", "zuul", false, []⟩]⟩ (by simp)
      ⟨"s1", "zuul", false, []⟩ (by simp) (by simp)
  · exact (Validator_enabled_stage ⟨none, none, none, none⟩).2
      [⟨"e", [⟨"s1", "zuul", false, []⟩]⟩] rfl rfl (by decide) (by decide)

/-- C2: with a `sources` CLI filter, the source stage disables — without
removing — every source whose name is not requested, keeps the others
untouched, and accepts a system exactly when some configured source name is
requested; when zero systems survive the stage globally,
`validate_environments` raises `NoValidSources` carrying the source names
of all originally-discovered systems. -/
theorem Validator_sources_stage (args : CiArgs) (environments : List Environment)
    (user : List String) (hs : args.sources = some user) :
    (∀ system : System,
        ((system_has_valid_sources args system).1.sources.map Source.name
            = system.sources.map Source.name) ∧
        (∀ src ∈ system.sources, user.contains src.name = false →
            src.disable ∈ (system_has_valid_sources args system).1.sources) ∧
        (∀ src ∈ system.sources, user.contains src.name = true →
            src ∈ (system_has_valid_sources args system).1.sources) ∧
        ((system_has_valid_sources args system).2 = true ↔
            ∃ src ∈ system.sources, user.contains src.name = true)) ∧
    (check_input_environments args.env_name (environments.map Environment.name)
        = none →
     check_input_environments args.systems
        ((environments.flatMap Environment.systems).map System.name) = none →
     (surviving_systems (stage_consistency args environments)).isEmpty = false →
     (surviving_systems
        (stage_enabled args (stage_consistency args environments))).isEmpty
          = false →
     (surviving_systems (stage_sources args
        (stage_enabled args (stage_consistency args environments)))).isEmpty
          = true →
     validate_environments args environments
        = (.error (.NoValidSources
            ((environments.flatMap Environment.systems).flatMap
              (fun system => system.sources.map Source.name))),
           (stage_sources args
             (stage_enabled args (stage_consistency args environments))).map
               Prod.fst)) := by
  constructor
  · intro system
    refine ⟨?_, ?_, ?_, ?_⟩
    · unfold system_has_valid_sources
      rw [hs]
      simp only [List.map_map]
      exact List.map_congr_left (fun src _ => by
        show Source.name (if user.contains src.name then src else src.disable)
          = Source.name src
        by_cases h : user.contains src.name
        · rw [if_pos h]
        · rw [if_neg h]
          rfl)
    · intro src hsrc hnotin
      unfold system_has_valid_sources
      rw [hs]
      show src.disable ∈ system.sources.map (fun source =>
        if user.contains source.name then source else source.disable)
      refine List.mem_map.mpr ⟨src, hsrc, ?_⟩
      rw [if_neg (by simpa using hnotin)]
    · intro src hsrc hin
      unfold system_has_valid_sources
      rw [hs]
      show src ∈ system.sources.map (fun source =>
        if user.contains source.name then source else source.disable)
      refine List.mem_map.mpr ⟨src, hsrc, ?_⟩
      rw [if_pos hin]
    · unfold system_has_valid_sources
      rw [hs]
      simp [List.any_map, List.any_eq_true, Function.comp]
  · intro h1 h2 hc1 hc2 hc3
    unfold validate_environments
    simp [h1, h2, hc1, hc2, hc3]

/-- Witness for C2: a system with sources `A` and `B` under a
`sources=["C"]` filter has both sources disabled in place, is dropped, and
`NoValidSources` carries both names; the post-run tree keeps the disabled
sources. -/
theorem Validator_sources_stage_witness :
    (Source.mk "A" true).disable
        ∈ ((system_has_valid_sources ⟨none, none, none, some ["C"]⟩
            ⟨"sys", "zuul", true, [⟨"A", true⟩, ⟨"B", true⟩]⟩).1).sources ∧
    validate_environments ⟨none, none, none, some ["C"]⟩
        [⟨"e", [⟨"sys", "zuul", true, [⟨"A", true⟩, ⟨"B", true⟩]⟩]⟩]
      = (.error (.NoValidSources ["A", "B"]),
         [⟨"e", [⟨"sys", "zuul", true, [⟨"A", false⟩, ⟨"B", false⟩]⟩]⟩]) := by
  constructor
  · exact ((Validator_sources_stage ⟨none, none, none, some ["C"]⟩ [] ["C"]
        rfl).1 ⟨"sys", "zuul", true, [⟨"A", true⟩, ⟨"B", true⟩]⟩).2.1
      ⟨"A", true⟩ (by simp) (by decide)
  · exact (Validator_sources_stage ⟨none, none, none, some ["C"]⟩
        [⟨"e", [⟨"sys", "zuul", true, [⟨"A", true⟩, ⟨"B", true⟩]⟩]⟩] ["C"]
        rfl).2 rfl rfl (by decide) (by decide) (by decide)

/-- C10: the in-place disabling of non-requested sources persists even when
`validate_environments` then raises `NoValidSources`: on this configuration
the run fails, yet the returned post-run configuration tree holds the
examined system's source with its enabled flag cleared (it was set in the
input), so the failed validation is not atomic with respect to the
source-disable side effect. -/
theorem Validator_source_disable_persists :
    validate_environments ⟨none, none, none, some ["other"]⟩
        [⟨"env", [⟨"sys", "zuul", true, [⟨"src_a", true⟩]⟩]⟩]
      = (.error (.NoValidSources ["src_a"]),
         [⟨"env", [⟨"sys", "zuul", true, [⟨"src_a", false⟩]⟩]⟩]) := by
  rfl

/-- Witness for C8 at a concrete list and concrete predicates. -/
theorem apply_filters_spec_witness :
    apply_filters [1, 2, 3, 4, 5] [fun x => decide (x % 2 = 0), fun x => decide (x > 1)]
        = [2, 4] ∧
    apply_filters [1, 2, 3, 4, 5] [fun x => decide (x % 2 = 0), fun x => decide (x > 1)]
        = apply_filters [1, 2, 3, 4, 5] [fun x => decide (x > 1), fun x => decide (x % 2 = 0)] := by
  have h := apply_filters_spec [1, 2, 3, 4, 5]
      [fun x => decide (x % 2 = 0), fun x => decide (x > 1)]
  refine ⟨?_, h.2 _ (List.Perm.swap _ _ _)⟩
  rw [h.1]
  decide

end Cibyl
